import Mathlib

/-!
Verification development for the mobi-forge request-resolution and
data-assembly pipeline: a shallow embedding of the data-source engine
(`src/data/mod.rs`), the route repository (`src/db/mod.rs`), the request
dispatcher (`src/http/mod.rs`) and the template-tree fingerprint
(`src/templates/mod.rs`), together with theorems settling the spec claims.
-/

set_option autoImplicit false

namespace MobiForge

/-! ## JSON values (serde_json::Value) -/

/-- JSON values. Objects are association lists in map-iteration order;
serde maps have pairwise distinct keys, which theorems assume explicitly
where it matters. -/
inductive Json where
  | null
  | bool (b : Bool)
  | num (n : Int)
  | str (s : String)
  | arr (items : List Json)
  | obj (fields : List (String × Json))
  deriving Repr

mutual

/-- Decidable equality on JSON values (hand-rolled: the automatic deriving
does not support nested inductives). -/
def Json.decEq : (a b : Json) → Decidable (a = b)
  | .null, .null => isTrue rfl
  | .null, .bool _ => isFalse (fun h => Json.noConfusion h)
  | .null, .num _ => isFalse (fun h => Json.noConfusion h)
  | .null, .str _ => isFalse (fun h => Json.noConfusion h)
  | .null, .arr _ => isFalse (fun h => Json.noConfusion h)
  | .null, .obj _ => isFalse (fun h => Json.noConfusion h)
  | .bool _, .null => isFalse (fun h => Json.noConfusion h)
  | .bool x, .bool y =>
      if h : x = y then isTrue (by rw [h])
      else isFalse (fun he => h (by injection he))
  | .bool _, .num _ => isFalse (fun h => Json.noConfusion h)
  | .bool _, .str _ => isFalse (fun h => Json.noConfusion h)
  | .bool _, .arr _ => isFalse (fun h => Json.noConfusion h)
  | .bool _, .obj _ => isFalse (fun h => Json.noConfusion h)
  | .num _, .null => isFalse (fun h => Json.noConfusion h)
  | .num _, .bool _ => isFalse (fun h => Json.noConfusion h)
  | .num x, .num y =>
      if h : x = y then isTrue (by rw [h])
      else isFalse (fun he => h (by injection he))
  | .num _, .str _ => isFalse (fun h => Json.noConfusion h)
  | .num _, .arr _ => isFalse (fun h => Json.noConfusion h)
  | .num _, .obj _ => isFalse (fun h => Json.noConfusion h)
  | .str _, .null => isFalse (fun h => Json.noConfusion h)
  | .str _, .bool _ => isFalse (fun h => Json.noConfusion h)
  | .str _, .num _ => isFalse (fun h => Json.noConfusion h)
  | .str x, .str y =>
      if h : x = y then isTrue (by rw [h])
      else isFalse (fun he => h (by injection he))
  | .str _, .arr _ => isFalse (fun h => Json.noConfusion h)
  | .str _, .obj _ => isFalse (fun h => Json.noConfusion h)
  | .arr _, .null => isFalse (fun h => Json.noConfusion h)
  | .arr _, .bool _ => isFalse (fun h => Json.noConfusion h)
  | .arr _, .num _ => isFalse (fun h => Json.noConfusion h)
  | .arr _, .str _ => isFalse (fun h => Json.noConfusion h)
  | .arr xs, .arr ys =>
      match Json.decEqList xs ys with
      | isTrue h => isTrue (by rw [h])
      | isFalse h => isFalse (fun he => h (by injection he))
  | .arr _, .obj _ => isFalse (fun h => Json.noConfusion h)
  | .obj _, .null => isFalse (fun h => Json.noConfusion h)
  | .obj _, .bool _ => isFalse (fun h => Json.noConfusion h)
  | .obj _, .num _ => isFalse (fun h => Json.noConfusion h)
  | .obj _, .str _ => isFalse (fun h => Json.noConfusion h)
  | .obj _, .arr _ => isFalse (fun h => Json.noConfusion h)
  | .obj xs, .obj ys =>
      match Json.decEqFields xs ys with
      | isTrue h => isTrue (by rw [h])
      | isFalse h => isFalse (fun he => h (by injection he))

/-- Decidable equality on JSON value lists. -/
def Json.decEqList : (a b : List Json) → Decidable (a = b)
  | [], [] => isTrue rfl
  | [], _ :: _ => isFalse (fun h => List.noConfusion h)
  | _ :: _, [] => isFalse (fun h => List.noConfusion h)
  | x :: xs, y :: ys =>
      match Json.decEq x y, Json.decEqList xs ys with
      | isTrue h1, isTrue h2 => isTrue (by rw [h1, h2])
      | isFalse h1, _ =>
          isFalse (fun he => by injection he with ha hb; exact h1 ha)
      | _, isFalse h2 =>
          isFalse (fun he => by injection he with ha hb; exact h2 hb)

/-- Decidable equality on JSON object field lists. -/
def Json.decEqFields : (a b : List (String × Json)) → Decidable (a = b)
  | [], [] => isTrue rfl
  | [], _ :: _ => isFalse (fun h => List.noConfusion h)
  | _ :: _, [] => isFalse (fun h => List.noConfusion h)
  | (k1, v1) :: xs, (k2, v2) :: ys =>
      match String.decEq k1 k2, Json.decEq v1 v2, Json.decEqFields xs ys with
      | isTrue hk, isTrue hv, isTrue ht => isTrue (by rw [hk, hv, ht])
      | isFalse hk, _, _ =>
          isFalse (fun he => by
            injection he with hh _
            injection hh with h1 _
            exact hk h1)
      | _, isFalse hv, _ =>
          isFalse (fun he => by
            injection he with hh _
            injection hh with _ h2
            exact hv h2)
      | _, _, isFalse ht =>
          isFalse (fun he => by
            injection he with _ htl
            exact ht htl)

end

instance : DecidableEq Json := Json.decEq

/-- Lookup of a key in an object field list (serde map `get`). -/
def objGet (m : List (String × Json)) (k : String) : Option Json :=
  (m.find? (fun kv => kv.1 == k)).map (fun kv => kv.2)

/-- Map `insert`: replace the value at an existing key in place, else append. -/
def objInsert (m : List (String × Json)) (k : String) (v : Json) :
    List (String × Json) :=
  match m with
  | [] => [(k, v)]
  | (k', v') :: rest =>
      if k' == k then (k', v) :: rest else (k', v') :: objInsert rest k v

/-- Map `entry(k).or_insert(v)`: insert only when the key is absent. -/
def entryOrInsert (m : List (String × Json)) (k : String) (v : Json) :
    List (String × Json) :=
  if (objGet m k).isSome then m else m ++ [(k, v)]

/-- `Value::get` on a JSON value with a string key. -/
def Json.get (v : Json) (k : String) : Option Json :=
  match v with
  | .obj m => objGet m k
  | _ => none

/-- `Value::as_str`. -/
def jsonAsStr : Json → Option String
  | .str s => some s
  | _ => none

/-! ## Placeholder interpolation (`render_placeholder_string`) -/

/-- Fuel-indexed worker for `str::replace`; `listReplace` supplies enough
fuel, and every recursive step consumes at least one character. -/
def listReplaceF (pat rep : List Char) : Nat → List Char → List Char
  | 0, s => s
  | _ + 1, [] => []
  | fuel + 1, c :: rest =>
      if pat ≠ [] ∧ pat.isPrefixOf (c :: rest) then
        rep ++ listReplaceF pat rep fuel ((c :: rest).drop pat.length)
      else
        c :: listReplaceF pat rep fuel rest

/-- `str::replace`: replace every non-overlapping occurrence of `pat`
(leftmost first) by `rep`. -/
def listReplace (s pat rep : List Char) : List Char :=
  listReplaceF pat rep s.length s

/-- Index of the first occurrence of `pat` in `s` (Rust `str::find`). -/
def findIdx? (pat : List Char) : List Char → Option Nat
  | [] => if pat = [] then some 0 else none
  | c :: rest =>
      if pat.isPrefixOf (c :: rest) then some 0
      else (findIdx? pat rest).map (· + 1)

/-- The literal marker `{{env.` as a character list. -/
def envMarker : List Char := "\x7b\x7benv.".toList

/-- The literal closing marker as a character list. -/
def closeMarker : List Char := "\x7d\x7d".toList

/-- Process-environment lookup; unset variables read as the empty string
(`std::env::var(..).unwrap_or_default()`). -/
def envLookup (env : List (String × String)) (k : String) : String :=
  ((env.find? (fun kv => kv.1 == k)).map (fun kv => kv.2)).getD ""

theorem findIdx?_bound (pat s : List Char) (i : Nat)
    (hp : pat ≠ []) (h : findIdx? pat s = some i) :
    i + pat.length ≤ s.length := by
  induction s generalizing i with
  | nil =>
      simp only [findIdx?] at h
      split at h
      · exact absurd (by assumption) hp
      · simp at h
  | cons c rest ih =>
      simp only [findIdx?] at h
      split at h
      · cases h
        have := List.IsPrefix.length_le (List.isPrefixOf_iff_prefix.mp (by assumption))
        simpa using this
      · match hr : findIdx? pat rest with
        | none => simp [hr] at h
        | some j =>
            simp only [hr, Option.map_some'] at h
            cases h
            have := ih j hr
            simp only [List.length_cons]
            omega

/-- Fuel-indexed worker for the env pass; every recursive step consumes at
least the six marker characters, so `s.length` fuel always suffices. -/
def envPassF (env : List (String × String)) : Nat → List Char → List Char
  | 0, s => s
  | fuel + 1, s =>
      match findIdx? envMarker s with
      | none => s
      | some start =>
          let after := s.drop (start + 6)
          match findIdx? closeMarker after with
          | none => s
          | some e =>
              s.take start ++ (envLookup env ⟨after.take e⟩).toList ++
                envPassF env fuel (after.drop (e + 2))

/-- Second pass of `render_placeholder_string`: scan left to right for
`{{env.NAME}}` markers, substituting the environment value (or the empty
string) and resuming strictly after the marker; an unterminated marker is
emitted verbatim. -/
def envPass (env : List (String × String)) (s : List Char) : List Char :=
  envPassF env s.length s

/-- The env-pass worker ignores fuel beyond the string length. -/
theorem envPassF_fuel (env : List (String × String)) :
    ∀ f1 f2 s, s.length ≤ f1 → s.length ≤ f2 →
      envPassF env f1 s = envPassF env f2 s := by
  intro f1
  induction f1 using Nat.strong_induction_on with
  | _ f1 ih =>
      intro f2 s h1 h2
      match f1, f2 with
      | 0, f2 =>
          have hs : s = [] := List.eq_nil_of_length_eq_zero (Nat.le_zero.mp h1)
          subst hs
          match f2 with
          | 0 => rfl
          | f2 + 1 =>
              have hne : ¬(envMarker = []) := by decide
              simp [envPassF, findIdx?, hne]
      | f1 + 1, 0 =>
          have hs : s = [] := List.eq_nil_of_length_eq_zero (Nat.le_zero.mp h2)
          subst hs
          have hne : ¬(envMarker = []) := by decide
          simp [envPassF, findIdx?, hne]
      | f1 + 1, f2 + 1 =>
          simp only [envPassF]
          match hfind : findIdx? envMarker s with
          | none => rfl
          | some start =>
              simp only []
              match hclose : findIdx? closeMarker (s.drop (start + 6)) with
              | none => rfl
              | some e =>
                  simp only []
                  have hb := findIdx?_bound closeMarker (s.drop (start + 6)) e
                    (by decide) hclose
                  have hb2 := findIdx?_bound envMarker s start (by decide) hfind
                  have h6 : envMarker.length = 6 := rfl
                  have hc2 : closeMarker.length = 2 := rfl
                  rw [hc2, List.length_drop] at hb
                  rw [h6] at hb2
                  have hlen : ((s.drop (start + 6)).drop (e + 2)).length ≤ f1 ∧
                      ((s.drop (start + 6)).drop (e + 2)).length ≤ f2 := by
                    simp only [List.length_drop]
                    omega
                  rw [ih f1 (Nat.lt_succ_self f1) f2
                    ((s.drop (start + 6)).drop (e + 2)) hlen.1 hlen.2]

/-- First pass of `render_placeholder_string`: for each param in map order
whose value is a plain string, `str::replace` of `{{key}}` over the whole
working string. -/
def paramPass (t : List Char) (qp : List (String × Json)) : List Char :=
  qp.foldl
    (fun out kv =>
      match jsonAsStr kv.2 with
      | some v =>
          listReplace out
            ("\x7b\x7b".toList ++ kv.1.toList ++ "\x7d\x7d".toList) v.toList
      | none => out)
    t

/-- `render_placeholder_string` from `src/data/mod.rs`: the param pass
followed by the env pass. -/
def render_placeholder_string (env : List (String × String)) (t : String)
    (qp : List (String × Json)) : String :=
  ⟨envPass env (paramPass t.toList qp)⟩

/-! ## Data-source configurations (`DataSourceCfg`) -/

/-- The tagged data-source union from `src/data/mod.rs` (serde tag
`provider`, variant names in snake case). -/
inductive DataSourceCfg where
  | static (payload : Json)
  | dbQuery (sql : String) (params : Option Json)
  | http (url : String) (method : Option String) (headers : Option Json)
  | mockFile (path : String)
  deriving Repr, DecidableEq

/-- serde `Option<Json>` field: absent or JSON null read as `None`. -/
def optJsonField (m : List (String × Json)) (k : String) : Option Json :=
  match objGet m k with
  | some .null => none
  | x => x

/-- serde deserialization of the internally tagged `DataSourceCfg` enum:
`none` models a serde parse error. Unknown extra fields are ignored;
a missing or mistyped required field fails the variant. -/
def parseDataSourceCfg (v : Json) : Option DataSourceCfg :=
  match v with
  | .obj m =>
      match objGet m "provider" with
      | some (.str "static") =>
          (objGet m "payload").map DataSourceCfg.static
      | some (.str "db_query") =>
          match objGet m "sql" with
          | some (.str sql) => some (.dbQuery sql (optJsonField m "params"))
          | _ => none
      | some (.str "http") =>
          match objGet m "url" with
          | some (.str url) =>
              match objGet m "method" with
              | none => some (.http url none (optJsonField m "headers"))
              | some .null => some (.http url none (optJsonField m "headers"))
              | some (.str s) =>
                  some (.http url (some s) (optJsonField m "headers"))
              | some _ => none
          | _ => none
      | some (.str "mock_file") =>
          match objGet m "path" with
          | some (.str p) => some (.mockFile p)
          | _ => none
      | _ => none
  | _ => none

/-! ## The data-source engine (`ContextBuilder`) -/

/-- An outbound HTTP request as issued by the `Http` variant: final URL,
uppercased method, and the rendered string-valued headers. -/
structure HttpReq where
  url : String
  method : String
  headers : List (String × String)

/-- Oracles for the two effectful providers (outbound HTTP and mock-file
reads); `Except.error` is a failed fetch/read. -/
structure Effects where
  http : HttpReq → Except String Json
  mock : String → Except String Json

/-- `Repo::json_query` from `src/db/mod.rs`: the file-mode repository has
no SQL backend and always returns an empty JSON array. -/
def json_query (_tenant _sql : String) (_params : Option Json) :
    Except String Json :=
  .ok (.arr [])

/-- The HTTP method actually dispatched: uppercase, and anything other
than POST/PUT/PATCH/DELETE falls back to GET. -/
def dispatchMethod (method : Option String) : String :=
  let m := (method.getD "GET").toUpper
  if m == "POST" ∨ m == "PUT" ∨ m == "PATCH" ∨ m == "DELETE" then m
  else "GET"

/-- `ContextBuilder::process_source`: parse the source as a
`DataSourceCfg`, falling back to a literal `Static` payload on parse
failure, then dispatch on the variant. -/
def process_source (eff : Effects) (env : List (String × String))
    (tenant : String) (source : Json) (qp : List (String × Json)) :
    Except String Json :=
  match parseDataSourceCfg source with
  | none => .ok source
  | some cfg =>
      match cfg with
      | .static payload => .ok payload
      | .dbQuery sql params => json_query tenant sql params
      | .http url method headers =>
          let finalUrl := render_placeholder_string env url qp
          let hdrs :=
            match headers with
            | some (.obj hs) =>
                hs.filterMap fun kv =>
                  (jsonAsStr kv.2).map fun s =>
                    (kv.1, render_placeholder_string env s qp)
            | _ => []
          eff.http ⟨finalUrl, dispatchMethod method, hdrs⟩
      | .mockFile path => eff.mock path

/-- The default `site` block `{title: tenant, slug: tenant}`. -/
def siteDefault (tenant : String) : Json :=
  .obj [("title", .str tenant), ("slug", .str tenant)]

/-- Step 3 of `ContextBuilder::from_source` (site injection). A `site`
object gets missing `slug`/`title` entries filled; otherwise
`v["site"] = ...` is assigned, whose serde_json `IndexMut` semantics
insert into an object, turn `null` into a fresh object, and PANIC on any
other value (modelled as `Except.error`). -/
def ensureSite (tenant : String) (v : Json) : Except String Json :=
  match v with
  | .obj m =>
      match objGet m "site" with
      | some (.obj sm) =>
          let sm1 := entryOrInsert sm "slug" (.str tenant)
          let sm2 := entryOrInsert sm1 "title" (.str tenant)
          .ok (.obj (objInsert m "site" (.obj sm2)))
      | some _ => .ok (.obj (objInsert m "site" (siteDefault tenant)))
      | none => .ok (.obj (objInsert m "site" (siteDefault tenant)))
  | .null => .ok (.obj [("site", siteDefault tenant)])
  | _ => .error "panic: cannot access key site of non-object JSON value"

/-- `true` when a value is an object carrying a `provider` key, which is
what nested-source expansion looks for. -/
def isNestedSource : Json → Bool
  | .obj m => (objGet m "provider").isSome
  | _ => false

/-- After a nested source resolves to an object with a `data` key, keep
only that `data` value. -/
def unwrapData : Json → Json
  | .obj m =>
      match objGet m "data" with
      | some d => d
      | none => .obj m
  | v => v

/-- One iteration of the nested-source loop: re-resolve the value at
`key`; on success replace it (after `data` unwrapping), on failure leave
the original value in place. -/
def expandStep (eff : Effects) (env : List (String × String))
    (tenant : String) (qp : List (String × Json))
    (m : List (String × Json)) (key : String) : List (String × Json) :=
  match objGet m key with
  | none => m
  | some src =>
      match process_source eff env tenant src qp with
      | .ok nv => objInsert m key (unwrapData nv)
      | .error _ => m

/-- The keys selected for nested expansion: top-level keys whose value is
an object containing a `provider` key, in map order. -/
def nestedKeys (m : List (String × Json)) : List String :=
  (m.filter fun kv => isNestedSource kv.2).map fun kv => kv.1

/-- Step 4 of `ContextBuilder::from_source`: nested-source expansion over
the selected top-level keys. Non-objects pass through unchanged. -/
def expandNested (eff : Effects) (env : List (String × String))
    (tenant : String) (qp : List (String × Json)) (v : Json) : Json :=
  match v with
  | .obj m => .obj ((nestedKeys m).foldl (expandStep eff env tenant qp) m)
  | v => v

/-- Steps 5 and 6 of `ContextBuilder::from_source`: merge query params
into the top level (existing keys win), then copy `q` into `page.query`
when `page` is an object. Non-objects pass through unchanged. -/
def mergeParams (qp : List (String × Json)) (v : Json) : Json :=
  match v with
  | .obj m =>
      let m1 := qp.foldl (fun acc kv => entryOrInsert acc kv.1 kv.2) m
      match (qp.find? fun kv => kv.1 == "q").map (fun kv => kv.2) with
      | some qv =>
          match objGet m1 "page" with
          | some (.obj pm) =>
              .obj (objInsert m1 "page" (.obj (objInsert pm "query" qv)))
          | _ => .obj m1
      | none => .obj m1
  | v => v

/-- Steps 3 to 6 of `ContextBuilder::from_source` applied to an already
resolved payload. -/
def buildContext (eff : Effects) (env : List (String × String))
    (tenant : String) (qp : List (String × Json)) (r : Json) :
    Except String Json :=
  (ensureSite tenant r).map fun v =>
    mergeParams qp (expandNested eff env tenant qp v)

/-- `ContextBuilder::from_source`: resolve the top-level source, then run
site injection, nested expansion and query-param merging. -/
def from_source (eff : Effects) (env : List (String × String))
    (tenant : String) (source : Json) (qp : List (String × Json)) :
    Except String Json :=
  (process_source eff env tenant source qp).bind
    (buildContext eff env tenant qp)

/-! ## Route repository (`src/db/mod.rs`) -/

/-- A configured route entry. -/
structure RouteCfg where
  path : String
  template_name : String
  data_source : Json
  deriving Repr, DecidableEq

/-- The file-mode configuration: tenant list and per-tenant route lists
(`routes` keyed by tenant slug, with a `_shared` fallback key). -/
structure Config where
  tenants : List String
  routes : List (String × List RouteCfg)
  deriving Repr

/-- A resolved route. -/
structure Route where
  template_name : String
  data_source : Json
  deriving Repr, DecidableEq

/-- Association-list lookup for the routes map. -/
def routesGet (routes : List (String × List RouteCfg)) (k : String) :
    Option (List RouteCfg) :=
  (routes.find? fun kv => kv.1 == k).map fun kv => kv.2

/-- `Repo::find_route`: take the tenant's own route list, falling back to
the `_shared` list only when the tenant has no list at all, then find an
exact path match. -/
def find_route (cfg : Config) (tenant path : String) : Option Route :=
  match
    match routesGet cfg.routes tenant with
    | some l => some l
    | none => routesGet cfg.routes "_shared"
  with
  | some list =>
      (list.find? fun r => r.path == path).map fun rc =>
        ⟨rc.template_name, rc.data_source⟩
  | none => none

/-- `Repo::tenant_exists`: the slug is in the tenant list or keys the
routes map. -/
def tenant_exists (cfg : Config) (slug : String) : Bool :=
  (cfg.tenants.any fun s => s == slug) ∨ (routesGet cfg.routes slug).isSome

/-! ## Request dispatcher (`render_dynamic`, `src/http/mod.rs`) -/

/-- The path used for route lookup: the request path with a guaranteed
leading slash. -/
def dbPathOf (cleanPath : String) : String :=
  if cleanPath.toList.head? = some '/' then cleanPath else "/" ++ cleanPath

/-- `clean_path.trim_start_matches('/')`: drop every leading slash. -/
def normalizedPathOf (cleanPath : String) : String :=
  ⟨cleanPath.toList.dropWhile fun c => c == '/'⟩

/-- The product-slug heuristic: the normalized path is
`products/<nonempty-slug>`. -/
def productSlugOf (normalized : String) : Option String :=
  if "products/".toList.isPrefixOf normalized.toList then
    if normalized.toList.drop 9 = [] then none
    else some ⟨normalized.toList.drop 9⟩
  else none

/-- Injection of the detected product slug into the query-param map under
`slug`, `product_slug` and `product_id`. -/
def injectProduct (qp : List (String × Json)) (slug : String) :
    List (String × Json) :=
  objInsert
    (objInsert (objInsert qp "slug" (.str slug)) "product_slug" (.str slug))
    "product_id" (.str slug)

/-- The query-param map actually handed to data resolution: the inbound
params plus the product-slug injections when a slug was detected. -/
def paramsMapOf (qp : List (String × Json)) (normalized : String) :
    List (String × Json) :=
  match productSlugOf normalized with
  | some s => injectProduct qp s
  | none => qp

/-- The dispatcher's route-lookup phase: the resolved route together with
the trace of `(path)` lookups performed against the repository, in
order. -/
def routeLookup (cfg : Config) (tenant cleanPath : String) :
    Option Route × List String :=
  let dbPath := dbPathOf cleanPath
  let normalized := normalizedPathOf cleanPath
  match find_route cfg tenant dbPath with
  | some r => (some r, [dbPath])
  | none =>
      if normalized == "product" then
        (find_route cfg tenant "/product", [dbPath, "/product"])
      else if (productSlugOf normalized).isSome then
        (find_route cfg tenant "/product", [dbPath, "/product"])
      else (none, [dbPath])

/-- The synthesized product-detail `Http` source from `render_dynamic`. -/
def productHttpSource : Json :=
  .obj
    [("provider", .str "http"),
     ("url",
      .str "https://api.mobicms.com.br/api/furnitures/\x7b\x7bproduct_id\x7d\x7d"),
     ("method", .str "GET"),
     ("headers",
      .obj [("Authorization", .str "Bearer \x7b\x7benv.MOBI_API_TOKEN\x7d\x7d")])]

/-- The synthesized fallback source when a product slug was detected: a
`Static` source whose payload nests the `Http` source under `product`. -/
def productStaticSource : Json :=
  .obj
    [("provider", .str "static"),
     ("payload", .obj [("product", productHttpSource)])]

/-- The empty `Static` fallback source. -/
def emptyStaticSource : Json :=
  .obj [("provider", .str "static"), ("payload", .obj [])]

/-- The data source handed to the engine by `render_dynamic`: the
resolved route's source if any, else the product fallback or the empty
static fallback. -/
def data_source_for : Option Route → Option String → Json
  | some r, _ => r.data_source
  | none, some _ => productStaticSource
  | none, none => emptyStaticSource

/-- `infer_template_name` from `src/http/mod.rs`. -/
def infer_template_name (path : String) : String :=
  let trimmed :=
    ((path.toList.dropWhile Char.isWhitespace).reverse.dropWhile
      Char.isWhitespace).reverse
  let normalized := trimmed.dropWhile fun c => c == '/'
  if normalized = [] ∨ normalized.getLast? = some '/' then "index.html"
  else if normalized.contains '.' then ⟨normalized⟩
  else (⟨normalized⟩ : String) ++ ".html"

/-! ## Template-tree fingerprint (`src/templates/mod.rs`) -/

/-- Rust `Path::extension` on a plain file name: the portion after the
last dot, `none` when there is no dot after the first character. -/
def fileExtension (name : String) : Option String :=
  match name.toList with
  | [] => none
  | _ :: rest =>
      if rest.contains '.' then
        some ⟨(rest.reverse.takeWhile fun c => c ≠ '.').reverse⟩
      else none

/-- `should_include`: the file name does not start with a dot, and the
extension is on the allow-list or absent. -/
def should_include (name : String) : Bool :=
  !(name.toList.head? == some '.') &&
    match fileExtension name with
    | some ext =>
        ext == "html" || ext == "jinja" || ext == "j2" || ext == "txt" ||
          ext == "jinja2"
    | none => true

/-- A directory tree: files carry content bytes and a modification time
in nanoseconds; the on-disk size is the content length. -/
inductive Entry where
  | file (name : String) (content : List Nat) (mtime : Nat)
  | dir (name : String) (entries : List Entry)
  deriving Repr

mutual

/-- Node count of a tree entry (termination measure). -/
def entrySize : Entry → Nat
  | .file _ _ _ => 1
  | .dir _ es => 1 + entriesSize es

/-- Node count of an entry list. -/
def entriesSize : List Entry → Nat
  | [] => 0
  | e :: es => entrySize e + entriesSize es

end

/-- What `fingerprint_for` hashes per included file, in traversal order:
relative path, byte length, and modification time. -/
structure FileRec where
  rel : List String
  size : Nat
  mtime : Nat
  deriving DecidableEq, Repr

/-- The included files of one directory level, in `read_dir` order, with
the hashed inputs. -/
def collectFiles (pre : List String) (es : List Entry) : List FileRec :=
  es.filterMap fun e =>
    match e with
    | .file n c t =>
        if should_include n then some ⟨pre ++ [n], c.length, t⟩ else none
    | .dir _ _ => none

/-- The subdirectories of one directory level, in `read_dir` order, as
walker stack frames. -/
def collectDirs (pre : List String) (es : List Entry) :
    List (List String × List Entry) :=
  es.filterMap fun e =>
    match e with
    | .file _ _ _ => none
    | .dir n sub => some (pre ++ [n], sub)

/-- Termination measure for the stack walker. -/
def stackMeasure (stack : List (List String × List Entry)) : Nat :=
  (stack.map fun f => 2 * entriesSize f.2 + 1).sum

theorem stackMeasure_collectDirs (pre : List String) (es : List Entry) :
    stackMeasure (collectDirs pre es) ≤ 2 * entriesSize es := by
  induction es with
  | nil => simp [stackMeasure, collectDirs]
  | cons e rest ih =>
      cases e with
      | file n c t =>
          simp only [collectDirs, List.filterMap_cons] at *
          simp only [stackMeasure] at *
          calc ((rest.filterMap _).map _).sum ≤ 2 * entriesSize rest := ih
            _ ≤ 2 * entriesSize (.file n c t :: rest) := by
                simp [entriesSize, entrySize]
      | dir n sub =>
          simp only [collectDirs, List.filterMap_cons] at *
          simp only [stackMeasure, List.map_cons, List.sum_cons] at *
          have : entriesSize (.dir n sub :: rest) =
              (1 + entriesSize sub) + entriesSize rest := by
            simp [entriesSize, entrySize]
          omega

/-- The stack-based walk of `fingerprint_for`: pop a frame, emit its
files in `read_dir` order, push its subdirectories (so the last-listed
subdirectory is walked first). -/
def walkLoop (stack : List (List String × List Entry)) : List FileRec :=
  match stack with
  | [] => []
  | (pre, es) :: rest =>
      collectFiles pre es ++ walkLoop ((collectDirs pre es).reverse ++ rest)
termination_by stackMeasure stack
decreasing_by
  simp only [stackMeasure, List.map_append, List.sum_append, List.map_cons,
    List.sum_cons, List.map_reverse, List.sum_reverse]
  have := stackMeasure_collectDirs pre es
  simp only [stackMeasure] at this
  omega

theorem walkLoop_nil : walkLoop [] = [] := by rw [walkLoop]

theorem walkLoop_cons (pre : List String) (es : List Entry)
    (rest : List (List String × List Entry)) :
    walkLoop ((pre, es) :: rest) =
      collectFiles pre es ++
        walkLoop ((collectDirs pre es).reverse ++ rest) := by
  rw [walkLoop]

/-- The full hasher transcript of `fingerprint_for` over a present root:
every included file's relative path, size and mtime in traversal
order. -/
def walkFiles (es : List Entry) : List FileRec :=
  walkLoop [([], es)]

/-- `fingerprint_for`, parameterized by the (deterministic) 64-bit hash
`h` of the transcript; a missing root yields the fixed sentinel 0. -/
def fingerprint_for (h : List FileRec → Nat) :
    Option (List Entry) → Nat
  | none => 0
  | some es => h (walkFiles es)

/-- `TemplateService::scan_fingerprint`: fold the shared-root and
tenant-root fingerprints with the outer hasher `combine`. -/
def scan_fingerprint (h : List FileRec → Nat) (combine : Nat → Nat → Nat)
    (shared tenant : Option (List Entry)) : Nat :=
  combine (fingerprint_for h shared) (fingerprint_for h tenant)

mutual

/-- Rewrite every file content in a tree entry. -/
def entryMapContent (f : List Nat → List Nat) : Entry → Entry
  | .file n c t => .file n (f c) t
  | .dir n es => .dir n (entriesMapContent f es)

/-- Rewrite every file content in an entry list. -/
def entriesMapContent (f : List Nat → List Nat) : List Entry → List Entry
  | [] => []
  | e :: es => entryMapContent f e :: entriesMapContent f es

end

/-! ## Generic instances and object-map lemmas -/

/-- Decidable equality for `Except` results. -/
def exceptDecEq {ε α : Type} [DecidableEq ε] [DecidableEq α] :
    (a b : Except ε α) → Decidable (a = b)
  | .ok x, .ok y =>
      if h : x = y then isTrue (by rw [h])
      else isFalse (fun he => h (by injection he))
  | .ok _, .error _ => isFalse (fun h => Except.noConfusion h)
  | .error _, .ok _ => isFalse (fun h => Except.noConfusion h)
  | .error x, .error y =>
      if h : x = y then isTrue (by rw [h])
      else isFalse (fun he => h (by injection he))

instance {ε α : Type} [DecidableEq ε] [DecidableEq α] :
    DecidableEq (Except ε α) := exceptDecEq

mutual

/-- Decidable equality on tree entries (hand-rolled, nested inductive). -/
def Entry.decEq : (a b : Entry) → Decidable (a = b)
  | .file n1 c1 t1, .file n2 c2 t2 =>
      if h : n1 = n2 ∧ c1 = c2 ∧ t1 = t2 then
        isTrue (by rw [h.1, h.2.1, h.2.2])
      else
        isFalse (fun he => by
          injection he with h1 h2 h3
          exact h ⟨h1, h2, h3⟩)
  | .file _ _ _, .dir _ _ => isFalse (fun h => Entry.noConfusion h)
  | .dir _ _, .file _ _ _ => isFalse (fun h => Entry.noConfusion h)
  | .dir n1 es1, .dir n2 es2 =>
      match String.decEq n1 n2, Entry.decEqList es1 es2 with
      | isTrue hn, isTrue hs => isTrue (by rw [hn, hs])
      | isFalse hn, _ =>
          isFalse (fun he => by injection he with h1 _; exact hn h1)
      | _, isFalse hs =>
          isFalse (fun he => by injection he with _ h2; exact hs h2)

/-- Decidable equality on entry lists. -/
def Entry.decEqList : (a b : List Entry) → Decidable (a = b)
  | [], [] => isTrue rfl
  | [], _ :: _ => isFalse (fun h => List.noConfusion h)
  | _ :: _, [] => isFalse (fun h => List.noConfusion h)
  | x :: xs, y :: ys =>
      match Entry.decEq x y, Entry.decEqList xs ys with
      | isTrue h1, isTrue h2 => isTrue (by rw [h1, h2])
      | isFalse h1, _ =>
          isFalse (fun he => by injection he with ha hb; exact h1 ha)
      | _, isFalse h2 =>
          isFalse (fun he => by injection he with ha hb; exact h2 hb)

end

instance : DecidableEq Entry := Entry.decEq

theorem objGet_objInsert_self (m : List (String × Json)) (k : String)
    (v : Json) : objGet (objInsert m k v) k = some v := by
  induction m with
  | nil => simp [objInsert, objGet]
  | cons kv rest ih =>
      obtain ⟨k', v'⟩ := kv
      by_cases h : k' = k
      · subst h
        simp [objInsert, objGet]
  -- stays on the replaced head
      · simp only [objInsert, beq_iff_eq, if_neg h]
        simpa [objGet, List.find?_cons, beq_iff_eq, h] using ih

theorem objGet_objInsert_ne (m : List (String × Json)) (k k' : String)
    (v : Json) (h : k' ≠ k) :
    objGet (objInsert m k v) k' = objGet m k' := by
  induction m with
  | nil => simp [objInsert, objGet, List.find?_cons, beq_iff_eq, Ne.symm h]
  | cons kv rest ih =>
      obtain ⟨k0, v0⟩ := kv
      by_cases h0 : k0 = k
      · subst h0
        simp [objInsert, objGet, List.find?_cons, beq_iff_eq, Ne.symm h]
      · simp only [objInsert, beq_iff_eq, if_neg h0]
        by_cases h1 : k0 = k'
        · subst h1
          simp [objGet, List.find?_cons]
        · simp only [objGet, List.find?_cons] at ih ⊢
          have : (k0 == k') = false := by simp [beq_iff_eq, h1]
          simp only [this]
          exact ih

theorem objGet_append (a b : List (String × Json)) (k : String) :
    objGet (a ++ b) k = (objGet a k).or (objGet b k) := by
  simp only [objGet, List.find?_append]
  cases a.find? fun kv => kv.1 == k <;> simp

theorem objGet_entryOrInsert_ne (m : List (String × Json)) (k k' : String)
    (v : Json) (h : k' ≠ k) :
    objGet (entryOrInsert m k v) k' = objGet m k' := by
  unfold entryOrInsert
  split
  · rfl
  · rw [objGet_append]
    have hone : objGet [(k, v)] k' = none := by
      simp [objGet, List.find?_cons, beq_iff_eq, Ne.symm h]
    rw [hone, Option.or_none]

theorem objGet_entryOrInsert_self (m : List (String × Json)) (k : String)
    (v : Json) :
    objGet (entryOrInsert m k v) k = some ((objGet m k).getD v) := by
  unfold entryOrInsert
  split
  · rename_i hs
    obtain ⟨w, hw⟩ := Option.isSome_iff_exists.mp hs
    simp [hw]
  · rename_i hs
    have hn : objGet m k = none := by
      cases h : objGet m k
      · rfl
      · exact absurd (by simp [h]) hs
    rw [objGet_append, hn]
    simp [objGet, List.find?_cons]

theorem objGet_mem (m : List (String × Json)) (k : String) (v : Json)
    (h : objGet m k = some v) : (k, v) ∈ m := by
  unfold objGet at h
  cases hf : m.find? fun kv => kv.1 == k with
  | none => simp [hf] at h
  | some kv =>
      simp only [hf, Option.map_some'] at h
      have hmem := List.mem_of_find?_eq_some hf
      have hp := List.find?_some hf
      obtain ⟨k0, v0⟩ := kv
      simp only [beq_iff_eq] at hp
      cases h
      rw [hp] at hmem
      exact hmem

theorem objGet_eq_of_mem (m : List (String × Json)) (k : String) (v : Json)
    (hnd : (m.map Prod.fst).Nodup) (h : (k, v) ∈ m) :
    objGet m k = some v := by
  induction m with
  | nil => simp at h
  | cons kv rest ih =>
      obtain ⟨k0, v0⟩ := kv
      simp only [List.map_cons, List.nodup_cons] at hnd
      rcases List.mem_cons.mp h with h1 | h2
      · cases h1
        simp [objGet, List.find?_cons]
      · have hk : k0 ≠ k := by
          intro he
          subst he
          exact hnd.1 (List.mem_map.mpr ⟨(k0, v), h2, rfl⟩)
        simp only [objGet, List.find?_cons]
        have : (k0 == k) = false := by simp [beq_iff_eq, hk]
        simp only [this]
        exact ih hnd.2 h2

theorem map_fst_objInsert (m : List (String × Json)) (k : String)
    (v : Json) (h : (objGet m k).isSome) :
    (objInsert m k v).map Prod.fst = m.map Prod.fst := by
  induction m with
  | nil => simp [objGet] at h
  | cons kv rest ih =>
      obtain ⟨k0, v0⟩ := kv
      by_cases h0 : k0 = k
      · subst h0
        simp [objInsert]
      · simp only [objInsert, beq_iff_eq, if_neg h0, List.map_cons]
        have : (objGet rest k).isSome := by
          simp only [objGet, List.find?_cons] at h
          have hb : (k0 == k) = false := by simp [beq_iff_eq, h0]
          simpa only [hb, objGet] using h
        rw [ih this]

/-! ## Nested-expansion and merge lemmas -/

/-- What one nested key resolves to: the `process_source` result with
`data` unwrapping on success, the original value on failure. -/
def expandOutcome (eff : Effects) (env : List (String × String))
    (tenant : String) (qp : List (String × Json)) (v : Json) : Json :=
  match process_source eff env tenant v qp with
  | .ok nv => unwrapData nv
  | .error _ => v

theorem expandStep_ne (eff : Effects) (env : List (String × String))
    (tenant : String) (qp : List (String × Json))
    (m : List (String × Json)) (key k : String) (h : k ≠ key) :
    objGet (expandStep eff env tenant qp m key) k = objGet m k := by
  unfold expandStep
  cases objGet m key with
  | none => rfl
  | some src =>
      dsimp only
      cases process_source eff env tenant src qp with
      | ok nv => exact objGet_objInsert_ne m key k (unwrapData nv) h
      | error _ => rfl

theorem expand_foldl_not_mem (eff : Effects) (env : List (String × String))
    (tenant : String) (qp : List (String × Json)) (ks : List String)
    (m : List (String × Json)) (k : String) (h : k ∉ ks) :
    objGet (ks.foldl (expandStep eff env tenant qp) m) k = objGet m k := by
  induction ks generalizing m with
  | nil => rfl
  | cons key rest ih =>
      simp only [List.foldl_cons]
      have hk : k ≠ key := fun he => h (by rw [he]; exact List.mem_cons_self _ _)
      rw [ih (expandStep eff env tenant qp m key)
        (fun hmem => h (List.mem_cons_of_mem _ hmem))]
      exact expandStep_ne eff env tenant qp m key k hk

theorem expand_foldl_mem (eff : Effects) (env : List (String × String))
    (tenant : String) (qp : List (String × Json)) (ks : List String)
    (m : List (String × Json)) (k : String) (v : Json)
    (hnd : ks.Nodup) (hk : k ∈ ks) (hv : objGet m k = some v) :
    objGet (ks.foldl (expandStep eff env tenant qp) m) k =
      some (expandOutcome eff env tenant qp v) := by
  induction ks generalizing m with
  | nil => simp at hk
  | cons key rest ih =>
      simp only [List.foldl_cons]
      rcases List.mem_cons.mp hk with he | hmem
      · subst he
        have hstep : objGet (expandStep eff env tenant qp m k) k =
            some (expandOutcome eff env tenant qp v) := by
          unfold expandStep expandOutcome
          rw [hv]
          dsimp only
          cases process_source eff env tenant v qp with
          | ok nv => exact objGet_objInsert_self m k (unwrapData nv)
          | error e => exact hv
        rw [expand_foldl_not_mem eff env tenant qp rest _ k
          (List.nodup_cons.mp hnd).1]
        exact hstep
      · have hne : k ≠ key := by
          intro he
          subst he
          exact (List.nodup_cons.mp hnd).1 hmem
        exact ih (expandStep eff env tenant qp m key)
          (List.nodup_cons.mp hnd).2 hmem
          ((expandStep_ne eff env tenant qp m key k hne).trans hv)

theorem mem_nestedKeys (m : List (String × Json)) (k : String) (v : Json)
    (hv : objGet m k = some v) (h : isNestedSource v = true) :
    k ∈ nestedKeys m := by
  have hmem := objGet_mem m k v hv
  unfold nestedKeys
  exact List.mem_map.mpr ⟨(k, v), List.mem_filter.mpr ⟨hmem, h⟩, rfl⟩

theorem not_mem_nestedKeys (m : List (String × Json)) (k : String)
    (v : Json) (hnd : (m.map Prod.fst).Nodup) (hv : objGet m k = some v)
    (h : isNestedSource v = false) : k ∉ nestedKeys m := by
  intro hmem
  unfold nestedKeys at hmem
  obtain ⟨⟨k0, w⟩, hin, hfst⟩ := List.mem_map.mp hmem
  cases hfst
  have hw := List.mem_filter.mp hin
  have : objGet m k0 = some w := objGet_eq_of_mem m k0 w hnd hw.1
  rw [hv] at this
  cases this
  rw [h] at hw
  exact Bool.noConfusion hw.2

theorem nestedKeys_nodup (m : List (String × Json))
    (hnd : (m.map Prod.fst).Nodup) : (nestedKeys m).Nodup := by
  unfold nestedKeys
  exact hnd.sublist (List.Sublist.map Prod.fst (List.filter_sublist m))

/-- Full characterization of nested-source expansion on a key-distinct
object: a key whose value is an object with a `provider` key is replaced
by one re-resolution of that very value (with `data` unwrapping, and the
original kept on error); every other key keeps its value. -/
theorem expandNested_objGet (eff : Effects) (env : List (String × String))
    (tenant : String) (qp : List (String × Json))
    (m : List (String × Json)) (k : String) (v : Json)
    (hnd : (m.map Prod.fst).Nodup) (hv : objGet m k = some v) :
    Json.get (expandNested eff env tenant qp (.obj m)) k =
      some (if isNestedSource v then expandOutcome eff env tenant qp v
        else v) := by
  unfold expandNested Json.get
  cases hn : isNestedSource v with
  | true =>
      simp only [if_pos]
      exact expand_foldl_mem eff env tenant qp (nestedKeys m) m k v
        (nestedKeys_nodup m hnd) (mem_nestedKeys m k v hv hn) hv
  | false =>
      simp only [Bool.false_eq_true, if_neg]
      rw [expand_foldl_not_mem eff env tenant qp (nestedKeys m) m k
        (not_mem_nestedKeys m k v hnd hv hn)]
      exact hv

theorem merge_foldl_preserve (qp : List (String × Json))
    (m : List (String × Json)) (k : String) (w : Json)
    (h : objGet m k = some w) :
    objGet (qp.foldl (fun acc kv => entryOrInsert acc kv.1 kv.2) m) k =
      some w := by
  induction qp generalizing m with
  | nil => exact h
  | cons kv rest ih =>
      simp only [List.foldl_cons]
      apply ih
      by_cases he : kv.1 = k
      · subst he
        unfold entryOrInsert
        rw [if_pos (by simp [h])]
        exact h
      · rw [objGet_entryOrInsert_ne m kv.1 k kv.2 (Ne.symm he)]
        exact h

/-- Query-param merging and `page.query` patching never change the value
of a key other than `page` that is already present. -/
theorem mergeParams_preserve (qp : List (String × Json))
    (m : List (String × Json)) (k : String) (w : Json)
    (hk : k ≠ "page") (h : objGet m k = some w) :
    Json.get (mergeParams qp (.obj m)) k = some w := by
  unfold mergeParams
  have h1 := merge_foldl_preserve qp m k w h
  cases (qp.find? fun kv => kv.1 == "q").map (fun kv => kv.2) with
  | none => exact h1
  | some qv =>
      simp only []
      cases hp : objGet (qp.foldl (fun acc kv => entryOrInsert acc kv.1 kv.2) m) "page" with
      | none => exact h1
      | some pv =>
          cases pv <;> simp only [Json.get] <;>
            first
            | exact h1
            | · rename_i pm
                rw [objGet_objInsert_ne _ "page" k _ hk]
                exact h1

/-! ## Concrete fixtures used by witnesses and counterexamples -/

/-- An effects oracle whose outbound HTTP and mock-file reads both
fail. -/
def effErr : Effects :=
  ⟨fun _ => .error "http disabled", fun _ => .error "mock disabled"⟩

/-- Wrapping of a JSON value as an explicit `Static` source object. -/
def mkStatic (v : Json) : Json :=
  .obj [("provider", .str "static"), ("payload", v)]

/-- A `DbQuery` source. -/
def dbQuerySource : Json :=
  .obj [("provider", .str "db_query"), ("sql", .str "SELECT * FROM products")]

/-- `true` iff the value parses as an `Http` data source. -/
def isHttpSourceJson (v : Json) : Bool :=
  match parseDataSourceCfg v with
  | some (.http _ _ _) => true
  | _ => false

/-! ## Claim C1 -/

/-- C1 (code bug): the site-injection step is NOT total over everything
`process_source` can return. `Repo::json_query` answers every `DbQuery`
source with a JSON array, and on an array the `v["site"] = ...`
assignment in `ContextBuilder::from_source` hits serde_json
`IndexMut::index_mut`, which panics for non-object, non-null values; so
a resolved `DbQuery` route panics instead of producing a context. -/
theorem C1_dbquery_payload_panics_site_injection :
    process_source effErr [] "acme" dbQuerySource [] = .ok (.arr []) ∧
      from_source effErr [] "acme" dbQuerySource [] =
        .error "panic: cannot access key site of non-object JSON value" :=
  ⟨rfl, rfl⟩

/-! ## Claim C3 -/

/-- C3 counterexample: with no route and a detected product slug, the
source handed to the engine does NOT parse as an `Http` source (it is a
`Static` wrapper). -/
theorem C3_product_fallback_not_http :
    isHttpSourceJson (data_source_for none (some "xyz")) = false := by decide

/-- C3 (amended): with no route and a detected product slug the
dispatcher hands the engine a synthesized `Static` source whose payload
carries, under the `product` key, an `Http` source aimed at the
product-detail endpoint templated with `\x7b\x7bproduct_id\x7d\x7d` and
an `Authorization` header templated from `MOBI_API_TOKEN`; with no slug
it hands over the empty `Static` source. -/
theorem C3_product_fallback_static_wrapper :
    (∀ s, data_source_for none (some s) = productStaticSource) ∧
      parseDataSourceCfg productStaticSource =
        some (.static (.obj [("product", productHttpSource)])) ∧
      parseDataSourceCfg productHttpSource =
        some (.http "https://api.mobicms.com.br/api/furnitures/\x7b\x7bproduct_id\x7d\x7d"
          (some "GET")
          (some (.obj
            [("Authorization",
              .str "Bearer \x7b\x7benv.MOBI_API_TOKEN\x7d\x7d")]))) ∧
      data_source_for none none = emptyStaticSource :=
  ⟨fun _ => rfl, by decide, by decide, rfl⟩

/-! ## Claim C6 -/

/-- C6: a source that does not parse as any `DataSourceCfg` variant
resolves exactly like the explicit `Static` source wrapping it; the
fallback never hard-fails at this layer. -/
theorem C6_unparsable_source_equals_static (eff : Effects)
    (env : List (String × String)) (tenant : String) (v : Json)
    (qp : List (String × Json)) (h : parseDataSourceCfg v = none) :
    process_source eff env tenant v qp =
      process_source eff env tenant (mkStatic v) qp := by
  have hr : process_source eff env tenant (mkStatic v) qp = .ok v := rfl
  rw [hr]
  unfold process_source
  rw [h]

/-- C6 witness: a provider-keyed object with an unknown provider value
parses as no variant and resolves to itself, like its `Static`
wrapping. -/
theorem C6_unparsable_source_equals_static_witness :
    parseDataSourceCfg (.obj [("provider", .str "bogus")]) = none ∧
      process_source effErr [] "acme" (.obj [("provider", .str "bogus")]) [] =
        process_source effErr [] "acme"
          (mkStatic (.obj [("provider", .str "bogus")])) [] :=
  ⟨by decide,
    C6_unparsable_source_equals_static effErr [] "acme"
      (.obj [("provider", .str "bogus")]) [] (by decide)⟩

/-! ## Claim C10 -/

/-- C10: route lookup falls back to the `_shared` route list only when
the tenant keys no list at all; a tenant with its own list and no
matching path yields no route, never a `_shared` route. -/
theorem C10_shared_routes_only_without_tenant_entry (cfg : Config)
    (tenant path : String) (l : List RouteCfg)
    (hl : routesGet cfg.routes tenant = some l)
    (hmiss : l.find? (fun r => r.path == path) = none) :
    find_route cfg tenant path = none := by
  unfold find_route
  rw [hl]
  dsimp only
  rw [hmiss]
  rfl

/-- C10 witness: tenant `acme` has an (empty) routes entry while
`_shared` carries `/p`; lookup of `/p` for `acme` is absent. -/
theorem C10_shared_routes_only_without_tenant_entry_witness :
    routesGet
        (Config.mk []
          [("acme", []),
           ("_shared", [⟨"/p", "page.html", Json.null⟩])]).routes
        "acme" = some [] ∧
      find_route
        (Config.mk []
          [("acme", []),
           ("_shared", [⟨"/p", "page.html", Json.null⟩])])
        "acme" "/p" = none :=
  ⟨by decide,
    C10_shared_routes_only_without_tenant_entry
      (Config.mk []
        [("acme", []), ("_shared", [⟨"/p", "page.html", Json.null⟩])])
      "acme" "/p" [] (by decide) (by decide)⟩

/-! ## Claim C7 -/

/-- C7: on a key-distinct object, nested-source expansion leaves every
top-level key whose value is not a provider-keyed object exactly as it
was, and replaces each provider-keyed object value by a single
`process_source` re-resolution of that very value (plus `data`
unwrapping) — so provider objects sitting deeper than one level are
never themselves expanded. -/
theorem C7_nested_expansion_frame (eff : Effects)
    (env : List (String × String)) (tenant : String)
    (qp : List (String × Json)) (m : List (String × Json)) (k : String)
    (v : Json) (hnd : (m.map Prod.fst).Nodup)
    (hv : objGet m k = some v) :
    Json.get (expandNested eff env tenant qp (.obj m)) k =
      some (if isNestedSource v then expandOutcome eff env tenant qp v
        else v) :=
  expandNested_objGet eff env tenant qp m k v hnd hv

/-- C7 witness: a provider-keyed child is replaced by its resolution
(`data`-unwrapped) while a plain sibling — even one containing a deeper
provider-keyed object — is untouched. -/
theorem C7_nested_expansion_frame_witness :
    Json.get
        (expandNested effErr [] "t" []
          (.obj
            [("a", mkStatic (.obj [("data", .str "payload")])),
             ("b", .obj [("inner", mkStatic (.str "deep"))])]))
        "a" = some (.str "payload") ∧
      Json.get
        (expandNested effErr [] "t" []
          (.obj
            [("a", mkStatic (.obj [("data", .str "payload")])),
             ("b", .obj [("inner", mkStatic (.str "deep"))])]))
        "b" = some (.obj [("inner", mkStatic (.str "deep"))]) :=
  ⟨(C7_nested_expansion_frame effErr [] "t" []
      [("a", mkStatic (.obj [("data", .str "payload")])),
       ("b", .obj [("inner", mkStatic (.str "deep"))])]
      "a" (mkStatic (.obj [("data", .str "payload")]))
      (by decide) (by decide)).trans (by decide),
   (C7_nested_expansion_frame effErr [] "t" []
      [("a", mkStatic (.obj [("data", .str "payload")])),
       ("b", .obj [("inner", mkStatic (.str "deep"))])]
      "b" (.obj [("inner", mkStatic (.str "deep"))])
      (by decide) (by decide)).trans (by decide)⟩

/-! ## Claim C8 -/

/-- C8: a failed top-level resolution aborts `from_source` with the same
error (no partial context), while a failed nested resolution is
swallowed and the original unresolved source value stays at its key. -/
theorem C8_nested_errors_swallowed_top_level_fatal :
    (∀ (eff : Effects) (env : List (String × String)) (tenant : String)
        (src : Json) (qp : List (String × Json)) (e : String),
        process_source eff env tenant src qp = .error e →
          from_source eff env tenant src qp = .error e) ∧
      (∀ (eff : Effects) (env : List (String × String)) (tenant : String)
          (qp : List (String × Json)) (m : List (String × Json))
          (k : String) (v : Json) (e : String),
          (m.map Prod.fst).Nodup → objGet m k = some v →
            isNestedSource v = true →
            process_source eff env tenant v qp = .error e →
            Json.get (expandNested eff env tenant qp (.obj m)) k =
              some v) := by
  constructor
  · intro eff env tenant src qp e h
    unfold from_source
    rw [h]
    rfl
  · intro eff env tenant qp m k v e hnd hv hnest herr
    rw [expandNested_objGet eff env tenant qp m k v hnd hv]
    rw [if_pos hnest]
    unfold expandOutcome
    rw [herr]

/-- C8 witness: an `Http` child fails against the erroring oracle; the
top-level failure aborts resolution with the same error, while the same
source as a nested child survives unresolved at its key. -/
theorem C8_nested_errors_swallowed_top_level_fatal_witness :
    process_source effErr [] "t"
        (.obj [("provider", .str "http"), ("url", .str "http://u")]) [] =
      .error "http disabled" ∧
      from_source effErr [] "t"
          (.obj [("provider", .str "http"), ("url", .str "http://u")]) [] =
        .error "http disabled" ∧
      Json.get
          (expandNested effErr [] "t" []
            (.obj
              [("child",
                .obj [("provider", .str "http"), ("url", .str "http://u")]),
               ("other", .str "ok")]))
          "child" =
        some (.obj [("provider", .str "http"), ("url", .str "http://u")]) :=
  ⟨by decide,
   C8_nested_errors_swallowed_top_level_fatal.1 effErr [] "t"
     (.obj [("provider", .str "http"), ("url", .str "http://u")]) []
     "http disabled" (by decide),
   C8_nested_errors_swallowed_top_level_fatal.2 effErr [] "t" []
     [("child", .obj [("provider", .str "http"), ("url", .str "http://u")]),
      ("other", .str "ok")]
     "child" (.obj [("provider", .str "http"), ("url", .str "http://u")])
     "http disabled" (by decide) (by decide) (by decide) (by decide)⟩

/-! ## Claim C4 -/

theorem ensureSite_obj_site (tenant : String) (m sm : List (String × Json))
    (hsite : objGet m "site" = some (.obj sm)) :
    ensureSite tenant (.obj m) =
      .ok (.obj (objInsert m "site"
        (.obj (entryOrInsert (entryOrInsert sm "slug" (.str tenant))
          "title" (.str tenant))))) := by
  unfold ensureSite
  dsimp only
  rw [hsite]

/-- C4 counterexample: a `site` that is present but not an object is
replaced wholesale by `{title, slug}`; and a `site` object that itself
carries a `provider` key is consumed by nested-source expansion, so
`site.slug`/`site.title` are absent after resolution completes. -/
theorem C4_site_overwritten :
    from_source effErr [] "t" (mkStatic (.obj [("site", .str "hello")])) [] =
        .ok (.obj [("site", siteDefault "t")]) ∧
      from_source effErr [] "t"
          (mkStatic (.obj [("site", mkStatic (.obj []))])) [] =
        .ok (.obj [("site", .obj [])]) := by
  decide

/-- C4 (amended): over a key-distinct object payload whose `site` is an
object without a `provider` key, resolution never overwrites an existing
`site.slug`/`site.title`, fills the missing ones with the tenant slug,
and leaves both present in the final context. (A non-object `site` is
replaced wholesale, and a provider-keyed `site` object is re-resolved as
a nested source — see the counterexample.) -/
theorem C4_site_preserved_amended (eff : Effects)
    (env : List (String × String)) (tenant : String)
    (qp : List (String × Json)) (m sm : List (String × Json))
    (hnd : (m.map Prod.fst).Nodup)
    (hsite : objGet m "site" = some (.obj sm))
    (hprov : objGet sm "provider" = none) :
    ∃ (ctx : Json) (sm₂ : List (String × Json)),
      buildContext eff env tenant qp (.obj m) = .ok ctx ∧
        ctx.get "site" = some (.obj sm₂) ∧
        (∀ x, objGet sm "slug" = some x → objGet sm₂ "slug" = some x) ∧
        (∀ x, objGet sm "title" = some x → objGet sm₂ "title" = some x) ∧
        (objGet sm₂ "slug").isSome = true ∧
        (objGet sm₂ "title").isSome = true := by
  have hslugne : ("slug" : String) ≠ "title" := by decide
  set sm₁ := entryOrInsert sm "slug" (.str tenant) with hsm₁
  set sm₂ := entryOrInsert sm₁ "title" (.str tenant) with hsm₂
  set m₁ := objInsert m "site" (.obj sm₂) with hm₁
  set m₂ := (nestedKeys m₁).foldl (expandStep eff env tenant qp) m₁ with hm₂
  have hens := ensureSite_obj_site tenant m sm hsite
  refine ⟨mergeParams qp (.obj m₂), sm₂, ?_, ?_, ?_, ?_, ?_, ?_⟩
  · unfold buildContext
    rw [hens]
    rfl
  · have hnd₁ : (m₁.map Prod.fst).Nodup := by
      rw [hm₁, map_fst_objInsert m "site" (.obj sm₂) (by simp [hsite])]
      exact hnd
    have hv₁ : objGet m₁ "site" = some (.obj sm₂) :=
      objGet_objInsert_self m "site" (.obj sm₂)
    have hprov₂ : objGet sm₂ "provider" = none := by
      rw [hsm₂, objGet_entryOrInsert_ne sm₁ "title" "provider" _ (by decide),
        hsm₁, objGet_entryOrInsert_ne sm "slug" "provider" _ (by decide),
        hprov]
    have hnest : isNestedSource (.obj sm₂) = false := by
      show (objGet sm₂ "provider").isSome = false
      rw [hprov₂]
      rfl
    have hexp := expandNested_objGet eff env tenant qp m₁ "site"
      (.obj sm₂) hnd₁ hv₁
    rw [hnest] at hexp
    simp only [Bool.false_eq_true, if_false] at hexp
    have hexp' : objGet m₂ "site" = some (.obj sm₂) := hexp
    exact mergeParams_preserve qp m₂ "site" (.obj sm₂) (by decide) hexp'
  · intro x hx
    rw [hsm₂, objGet_entryOrInsert_ne sm₁ "title" "slug" _ hslugne, hsm₁,
      objGet_entryOrInsert_self sm "slug" (.str tenant), hx]
    rfl
  · intro x hx
    rw [hsm₂, objGet_entryOrInsert_self sm₁ "title" (.str tenant), hsm₁,
      objGet_entryOrInsert_ne sm "slug" "title" _ (Ne.symm hslugne), hx]
    rfl
  · rw [hsm₂, objGet_entryOrInsert_ne sm₁ "title" "slug" _ hslugne, hsm₁,
      objGet_entryOrInsert_self sm "slug" (.str tenant)]
    rfl
  · rw [hsm₂, objGet_entryOrInsert_self sm₁ "title" (.str tenant)]
    rfl

/-- C4 witness: a payload whose `site` object already fixes `slug`
yields a context whose `site` keeps that slug and gains a title. -/
theorem C4_site_preserved_amended_witness :
    (([("site", Json.obj [("slug", Json.str "existing")])].map
        Prod.fst).Nodup) ∧
      (∃ (ctx : Json) (sm₂ : List (String × Json)),
        buildContext effErr [] "t" []
            (.obj [("site", .obj [("slug", .str "existing")])]) =
          .ok ctx ∧
          ctx.get "site" = some (.obj sm₂) ∧
          (∀ x, objGet [("slug", Json.str "existing")] "slug" = some x →
            objGet sm₂ "slug" = some x) ∧
          (∀ x, objGet [("slug", Json.str "existing")] "title" = some x →
            objGet sm₂ "title" = some x) ∧
          (objGet sm₂ "slug").isSome = true ∧
          (objGet sm₂ "title").isSome = true) :=
  ⟨by decide,
    C4_site_preserved_amended effErr [] "t" []
      [("site", .obj [("slug", .str "existing")])]
      [("slug", .str "existing")] (by decide) (by decide) (by decide)⟩

/-! ## Claim C2 -/

/-- The `\x7b\x7bkey\x7d\x7d` placeholder of a param key. -/
def placeholderOf (k : String) : List Char :=
  "\x7b\x7b".toList ++ k.toList ++ "\x7d\x7d".toList

/-- Modelled from the spec (refinement reference, not source code): one
left-to-right scan of the original template with no re-scanning — at
each position the first string-valued param whose placeholder matches is
substituted, else a terminated env marker is substituted, else the
character is copied; every substituted value is emitted verbatim. -/
def interpolateNoRescanF (env : List (String × String))
    (qp : List (String × Json)) : Nat → List Char → List Char
  | 0, s => s
  | _ + 1, [] => []
  | fuel + 1, c :: rest =>
      match qp.find? fun kv =>
          (jsonAsStr kv.2).isSome &&
            (placeholderOf kv.1).isPrefixOf (c :: rest) with
      | some kv =>
          ((jsonAsStr kv.2).getD "").toList ++
            interpolateNoRescanF env qp fuel
              ((c :: rest).drop (placeholderOf kv.1).length)
      | none =>
          if envMarker.isPrefixOf (c :: rest) then
            match findIdx? closeMarker ((c :: rest).drop 6) with
            | some e =>
                (envLookup env ⟨((c :: rest).drop 6).take e⟩).toList ++
                  interpolateNoRescanF env qp fuel
                    (((c :: rest).drop 6).drop (e + 2))
            | none => c :: rest
          else
            c :: interpolateNoRescanF env qp fuel rest

/-- The spec-modelled no-rescan interpolation. -/
def interpolateNoRescan (env : List (String × String)) (t : String)
    (qp : List (String × Json)) : String :=
  ⟨interpolateNoRescanF env qp t.toList.length t.toList⟩

/-- C2 counterexample: the code re-scans substituted values — a param
value containing an env marker is expanded by the second pass, and a
param value containing a later param's placeholder is expanded by that
later param's `str::replace`; the spec-modelled no-rescan interpolation
leaves both verbatim. -/
theorem C2_substituted_values_rescanned :
    render_placeholder_string [("HOME", "secret")] "\x7b\x7ba\x7d\x7d"
        [("a", .str "\x7b\x7benv.HOME\x7d\x7d")] = "secret" ∧
      interpolateNoRescan [("HOME", "secret")] "\x7b\x7ba\x7d\x7d"
        [("a", .str "\x7b\x7benv.HOME\x7d\x7d")] =
        "\x7b\x7benv.HOME\x7d\x7d" ∧
      render_placeholder_string [] "\x7b\x7ba\x7d\x7d"
        [("a", .str "\x7b\x7bb\x7d\x7d"), ("b", .str "X")] = "X" ∧
      interpolateNoRescan [] "\x7b\x7ba\x7d\x7d"
        [("a", .str "\x7b\x7bb\x7d\x7d"), ("b", .str "X")] =
        "\x7b\x7bb\x7d\x7d" := by
  decide

/-- C2 (amended): only env-pass substitutions are never re-scanned — the
replacement for a `\x7b\x7benv.NAME\x7d\x7d` marker (whatever it
contains) is emitted verbatim and scanning resumes strictly after the
marker; first-pass param substitutions, by contrast, are re-scanned by
later params and by the env pass (see the counterexample). -/
theorem C2_env_substitution_never_rescanned
    (env : List (String × String)) (pre name post : List Char)
    (hpre : findIdx? envMarker
        (pre ++ envMarker ++ name ++ closeMarker ++ post) =
      some pre.length)
    (hname : findIdx? closeMarker (name ++ closeMarker ++ post) =
      some name.length) :
    envPass env (pre ++ envMarker ++ name ++ closeMarker ++ post) =
      pre ++ (envLookup env ⟨name⟩).toList ++ envPass env post := by
  have h6 : envMarker.length = 6 := rfl
  have hc2 : closeMarker.length = 2 := rfl
  have hassoc : pre ++ envMarker ++ name ++ closeMarker ++ post =
      (pre ++ envMarker) ++ (name ++ closeMarker ++ post) := by
    simp [List.append_assoc]
  have hslen : (pre ++ envMarker ++ name ++ closeMarker ++ post).length =
      pre.length + 6 + (name.length + (2 + post.length)) := by
    simp [List.length_append, h6, hc2]
    omega
  have hdrop : (pre ++ envMarker ++ name ++ closeMarker ++ post).drop
      (pre.length + 6) = name ++ closeMarker ++ post := by
    rw [hassoc]
    have hl : (pre ++ envMarker).length = pre.length + 6 := by
      simp [List.length_append, h6]
    rw [← hl, List.drop_left]
  have htake : (pre ++ envMarker ++ name ++ closeMarker ++ post).take
      pre.length = pre := by
    have : pre ++ envMarker ++ name ++ closeMarker ++ post =
        pre ++ (envMarker ++ (name ++ closeMarker ++ post)) := by
      simp [List.append_assoc]
    rw [this, List.take_left]
  have htakename : (name ++ closeMarker ++ post).take name.length =
      name := by
    have : name ++ closeMarker ++ post =
        name ++ (closeMarker ++ post) := by simp [List.append_assoc]
    rw [this, List.take_left]
  have hdropname : (name ++ closeMarker ++ post).drop (name.length + 2) =
      post := by
    have : name ++ closeMarker ++ post =
        (name ++ closeMarker) ++ post := rfl
    rw [this]
    have hl : (name ++ closeMarker).length = name.length + 2 := by
      simp [List.length_append, hc2]
    rw [← hl, List.drop_left]
  obtain ⟨N, hN⟩ : ∃ N,
      (pre ++ envMarker ++ name ++ closeMarker ++ post).length = N + 1 :=
    ⟨(pre ++ envMarker ++ name ++ closeMarker ++ post).length - 1, by
      rw [hslen]; omega⟩
  rw [envPass, hN]
  simp only [envPassF]
  rw [hpre]
  dsimp only
  rw [hdrop, hname]
  dsimp only
  rw [htake, htakename, hdropname]
  have hfuel : envPassF env N post = envPass env post := by
    rw [envPass]
    apply envPassF_fuel
    · rw [hslen] at hN
      omega
    · exact Nat.le_refl _
  rw [hfuel]

/-- C2 witness: an env substitution whose value itself contains an env
marker is emitted verbatim and the scan resumes after the marker. -/
theorem C2_env_substitution_never_rescanned_witness :
    findIdx? envMarker
        ("A".toList ++ envMarker ++ "HOME".toList ++ closeMarker ++
          "B".toList) = some ("A".toList.length) ∧
      findIdx? closeMarker
        ("HOME".toList ++ closeMarker ++ "B".toList) =
        some ("HOME".toList.length) ∧
      envPass [("HOME", "\x7b\x7benv.HOME\x7d\x7d")]
        ("A".toList ++ envMarker ++ "HOME".toList ++ closeMarker ++
          "B".toList) =
        "A".toList ++
          (envLookup [("HOME", "\x7b\x7benv.HOME\x7d\x7d")]
            ⟨"HOME".toList⟩).toList ++
          envPass [("HOME", "\x7b\x7benv.HOME\x7d\x7d")] "B".toList :=
  ⟨by decide, by decide,
    C2_env_substitution_never_rescanned
      [("HOME", "\x7b\x7benv.HOME\x7d\x7d")] "A".toList "HOME".toList
      "B".toList (by decide) (by decide)⟩

/-! ## Claim C9 -/

/-- C9: when the first lookup (of the slash-normalized path) misses and
the trimmed path is exactly `product` or matches
`products/<nonempty-slug>`, exactly one retry with the fixed path
`/product` happens — otherwise no retry; and a detected product slug is
present under `slug`, `product_slug` and `product_id` in the
query-param map handed to data resolution. -/
theorem C9_product_fallback_lookup_and_injection (cfg : Config)
    (tenant cleanPath : String) (qp : List (String × Json)) :
    ((routeLookup cfg tenant cleanPath).2 =
      if (find_route cfg tenant (dbPathOf cleanPath)).isNone ∧
          (normalizedPathOf cleanPath = "product" ∨
            (productSlugOf (normalizedPathOf cleanPath)).isSome = true)
        then [dbPathOf cleanPath, "/product"]
        else [dbPathOf cleanPath]) ∧
      ∀ s, productSlugOf (normalizedPathOf cleanPath) = some s →
        objGet (paramsMapOf qp (normalizedPathOf cleanPath)) "slug" =
            some (.str s) ∧
          objGet (paramsMapOf qp (normalizedPathOf cleanPath))
              "product_slug" = some (.str s) ∧
          objGet (paramsMapOf qp (normalizedPathOf cleanPath))
              "product_id" = some (.str s) := by
  constructor
  · unfold routeLookup
    dsimp only
    cases hfr : find_route cfg tenant (dbPathOf cleanPath) with
    | some r => simp
    | none =>
        by_cases h1 : normalizedPathOf cleanPath = "product"
        · simp [h1]
        · have h1b : (normalizedPathOf cleanPath == "product") = false := by
            simp [beq_iff_eq, h1]
          by_cases h2 : (productSlugOf (normalizedPathOf cleanPath)).isSome = true
          · simp [h1b, h1, h2]
          · simp [h1b, h1, h2]
  · intro s hs
    unfold paramsMapOf
    rw [hs]
    unfold injectProduct
    have hpid := objGet_objInsert_self
      (objInsert (objInsert qp "slug" (.str s)) "product_slug" (.str s))
      "product_id" (.str s)
    have hpslug : objGet
        (objInsert
          (objInsert (objInsert qp "slug" (.str s)) "product_slug" (.str s))
          "product_id" (.str s)) "product_slug" = some (.str s) := by
      rw [objGet_objInsert_ne _ "product_id" "product_slug" _ (by decide)]
      exact objGet_objInsert_self (objInsert qp "slug" (.str s))
        "product_slug" (.str s)
    have hslug : objGet
        (objInsert
          (objInsert (objInsert qp "slug" (.str s)) "product_slug" (.str s))
          "product_id" (.str s)) "slug" = some (.str s) := by
      rw [objGet_objInsert_ne _ "product_id" "slug" _ (by decide),
        objGet_objInsert_ne _ "product_slug" "slug" _ (by decide)]
      exact objGet_objInsert_self qp "slug" (.str s)
    exact ⟨hslug, hpslug, hpid⟩

/-- C9 witness: with a configuration whose only route is `/product`, the
request path `products/xyz` misses, retries once at `/product`, and the
slug `xyz` is injected under all three keys. -/
theorem C9_product_fallback_lookup_and_injection_witness :
    (routeLookup
        (Config.mk ["t"]
          [("t", [⟨"/product", "pages/product.html", Json.null⟩])])
        "t" "products/xyz").2 = ["/products/xyz", "/product"] ∧
      objGet (paramsMapOf [] (normalizedPathOf "products/xyz")) "slug" =
          some (.str "xyz") ∧
        objGet (paramsMapOf [] (normalizedPathOf "products/xyz"))
            "product_slug" = some (.str "xyz") ∧
        objGet (paramsMapOf [] (normalizedPathOf "products/xyz"))
            "product_id" = some (.str "xyz") :=
  ⟨by
    rw [(C9_product_fallback_lookup_and_injection
      (Config.mk ["t"]
        [("t", [⟨"/product", "pages/product.html", Json.null⟩])])
      "t" "products/xyz" []).1]
    decide,
   (C9_product_fallback_lookup_and_injection
      (Config.mk ["t"]
        [("t", [⟨"/product", "pages/product.html", Json.null⟩])])
      "t" "products/xyz" []).2 "xyz" (by decide)⟩

/-! ## Claim C5 -/

theorem collectFiles_mapContent (f : List Nat → List Nat)
    (hf : ∀ c, (f c).length = c.length) (pre : List String)
    (es : List Entry) :
    collectFiles pre (entriesMapContent f es) = collectFiles pre es := by
  induction es with
  | nil => rfl
  | cons e rest ih =>
      cases e with
      | file n c t =>
          simp only [entriesMapContent, entryMapContent, collectFiles,
            List.filterMap_cons] at ih ⊢
          rw [hf c]
          by_cases hsi : should_include n = true
          · simp only [hsi, if_true]
            rw [ih]
          · simp only [hsi, if_false]
            exact ih
      | dir n sub =>
          simp only [entriesMapContent, entryMapContent, collectFiles,
            List.filterMap_cons] at ih ⊢
          exact ih

theorem collectDirs_mapContent (f : List Nat → List Nat)
    (pre : List String) (es : List Entry) :
    collectDirs pre (entriesMapContent f es) =
      (collectDirs pre es).map fun fr => (fr.1, entriesMapContent f fr.2) := by
  induction es with
  | nil => rfl
  | cons e rest ih =>
      cases e with
      | file n c t =>
          simp only [entriesMapContent, entryMapContent, collectDirs,
            List.filterMap_cons] at ih ⊢
          exact ih
      | dir n sub =>
          simp only [entriesMapContent, entryMapContent, collectDirs,
            List.filterMap_cons, List.map_cons] at ih ⊢
          rw [ih]

theorem walkLoop_mapContent (f : List Nat → List Nat)
    (hf : ∀ c, (f c).length = c.length)
    (stack : List (List String × List Entry)) :
    walkLoop (stack.map fun fr => (fr.1, entriesMapContent f fr.2)) =
      walkLoop stack := by
  induction stack using walkLoop.induct with
  | case1 => rfl
  | case2 pre es rest ih =>
      rw [List.map_cons, walkLoop_cons, walkLoop_cons,
        collectFiles_mapContent f hf, collectDirs_mapContent f,
        ← List.map_reverse, ← List.map_append, ih]

/-- C5 (amended): the fingerprint transcript reads only each included
file's relative path, byte length and modification time (in traversal
order); file content is never an input, so any length-preserving rewrite
of every file's content — in particular any content change that keeps
size and mtime — leaves the walk transcript, and hence the fingerprint,
unchanged; recomputation over an unchanged tree is trivially stable. -/
theorem C5_fingerprint_content_blind (f : List Nat → List Nat)
    (hf : ∀ c, (f c).length = c.length) :
    (∀ es, walkFiles (entriesMapContent f es) = walkFiles es) ∧
      ∀ (h : List FileRec → Nat) (combine : Nat → Nat → Nat)
        (shared tenant : Option (List Entry)),
        scan_fingerprint h combine (shared.map (entriesMapContent f))
            (tenant.map (entriesMapContent f)) =
          scan_fingerprint h combine shared tenant := by
  have hwalk : ∀ es, walkFiles (entriesMapContent f es) = walkFiles es := by
    intro es
    have := walkLoop_mapContent f hf [([], es)]
    simpa [walkFiles] using this
  refine ⟨hwalk, ?_⟩
  intro h combine shared tenant
  unfold scan_fingerprint fingerprint_for
  cases shared <;> cases tenant <;> simp [hwalk]

/-- A demonstration tree with an included file, a subdirectory, a
dotfile (excluded) and a disallowed extension (excluded). -/
def demoTree : List Entry :=
  [.file "index.html" [10, 20] 7,
   .dir "partials" [.file "nav.html" [1] 3, .file ".hidden.html" [2] 4],
   .file "style.css" [9] 2]

/-- Content rewrite that keeps every length: zero out all bytes. -/
def zeroContent : List Nat → List Nat :=
  fun c => c.map fun _ => 0

/-- C5 witness: zeroing every file content of the demonstration tree
leaves the walk transcript unchanged. -/
theorem C5_fingerprint_content_blind_witness :
    walkFiles (entriesMapContent zeroContent demoTree) =
      walkFiles demoTree :=
  (C5_fingerprint_content_blind zeroContent
    (fun c => by simp [zeroContent])).1 demoTree

/-- Two trees equal except for one file's content, with byte length and
mtime unchanged. -/
def tree1 : List Entry := [.file "index.html" [1, 2] 5]

/-- The content-modified twin of `tree1`. -/
def tree2 : List Entry := [.file "index.html" [9, 9] 5]

/-- C5 counterexample: a content-only change (same byte length, same
mtime) produces the identical hasher transcript, so the fingerprint — a
deterministic 64-bit hash of that transcript — cannot change, contrary
to the claim that a content change alone must change it. -/
theorem C5_content_change_same_transcript :
    walkFiles tree1 = walkFiles tree2 ∧ tree1 ≠ tree2 := by
  constructor
  · rw [walkFiles, walkFiles, walkLoop_cons, walkLoop_cons]
    have h1 : collectDirs [] tree1 = [] := rfl
    have h2 : collectDirs [] tree2 = [] := rfl
    rw [h1, h2]
    simp only [List.reverse_nil, List.nil_append, walkLoop_nil]
    decide
  · decide

end MobiForge
